import Mathlib

/-!
Verification of the FSICFR (Fixed-Strategy-Iteration Counterfactual Regret
Minimization) core of the Counterfactual-Regret-Minimization repository.

The repository implements the Liar Die FSICFR trainer several times over:
`FSICFR.py` and `FSICFR_refactored.py` (class `Node` + class `LiarDieTrainer`
with `p_player`/`p_opponent` reach fields), and `liar_die.py` /
`liar_die_copy.py` built on the strategy-manager classes of
`sequantial_strategy_manager.py` / `sequantial_strategy_manager_copy.py`
(`my_reach`/`opp_reach` reach fields).

This file gives a shallow embedding of those classes and proves or refutes
the specification claims about them.  Floating-point arithmetic is embedded
as exact rational arithmetic; numpy arrays become `List ℚ`; the numpy object
arrays / dict node maps become total functions from integer keys to node
records (only keys the source code actually touches are relevant).
-/

/-! ## Vector helpers (numpy operations on `List ℚ`) -/

/-- Embeds `np.maximum(0, a)` -/
def vmax0 (l : List ℚ) : List ℚ := l.map (fun x => max 0 x)

/-- Embeds `a / c` (numpy broadcast division) -/
def vdiv (l : List ℚ) (c : ℚ) : List ℚ := l.map (fun x => x / c)

/-- Embeds `c * a` (numpy broadcast multiplication) -/
def vscale (c : ℚ) (l : List ℚ) : List ℚ := l.map (fun x => c * x)

/-- Embeds `a + b` (numpy elementwise addition; source arrays always agree in length) -/
def vadd (a b : List ℚ) : List ℚ := List.zipWith (fun x y => x + y) a b

/-- Embeds `np.full(n, 1.0 / n)` -/
def unifStrat (n : Nat) : List ℚ := List.replicate n (1 / (n : ℚ))

/-- In-place indexed update loop `for a in range(n): l[a] := f a l[a]`,
restricted to indices below `n` (all indices are in range in the source's
executions). -/
def mapIdxBelow (f : Nat → ℚ → ℚ) (n : Nat) : Nat → List ℚ → List ℚ
  | _, [] => []
  | i, x :: xs => (if i < n then f i x else x) :: mapIdxBelow f n (i + 1) xs

theorem vmax0_nonneg (l : List ℚ) : ∀ x ∈ vmax0 l, 0 ≤ x := by
  intro x hx
  rcases List.mem_map.mp hx with ⟨y, _, rfl⟩
  exact le_max_left 0 y

theorem sum_nonneg_of_mem (l : List ℚ) (h : ∀ x ∈ l, 0 ≤ x) : 0 ≤ l.sum := by
  induction l with
  | nil => simp
  | cons a t ih =>
    simp only [List.sum_cons]
    have ha := h a (by simp)
    have ht := ih (fun x hx => h x (List.mem_cons_of_mem a hx))
    linarith

theorem vdiv_sum (l : List ℚ) (c : ℚ) : (vdiv l c).sum = l.sum / c := by
  induction l with
  | nil => simp [vdiv]
  | cons a t ih =>
    simp only [vdiv, List.map_cons, List.sum_cons] at *
    rw [ih, div_add_div_same]

theorem unifStrat_sum (n : Nat) (h : 0 < n) : (unifStrat n).sum = 1 := by
  have hn : (n : ℚ) ≠ 0 := (Nat.cast_pos.mpr h).ne'
  simp [unifStrat, List.sum_replicate, nsmul_eq_mul]
  field_simp

theorem vmax0_eq_zero_of_nonpos (l : List ℚ) (h : ∀ x ∈ l, x ≤ 0) :
    vmax0 l = List.replicate l.length 0 := by
  induction l with
  | nil => simp [vmax0]
  | cons a t ih =>
    have ha : max 0 a = 0 := max_eq_left (h a (by simp))
    simp only [vmax0, List.map_cons, List.length_cons, List.replicate_succ] at *
    rw [ha, ih (fun x hx => h x (List.mem_cons_of_mem a hx))]

/-! ## `FSICFR.py` / `FSICFR_refactored.py`: class `Node`

The two files contain a byte-identical `Node` class; it is embedded once.
Reach probabilities are named `p_player` / `p_opponent` in the source. -/

structure FNode where
  numActions : Nat
  regretSum : List ℚ
  strategy : List ℚ
  strategySum : List ℚ
  u : ℚ
  pPlayer : ℚ
  pOpponent : ℚ
  deriving Repr, DecidableEq

/-- Embeds `Node.__init__(num_actions)` -/
def FNode.init (numActions : Nat) : FNode :=
  { numActions := numActions
    regretSum := List.replicate numActions 0
    strategy := List.replicate numActions 0
    strategySum := List.replicate numActions 0
    u := 0
    pPlayer := 0
    pOpponent := 0 }

/-- Embeds `Node.get_strategy` of `FSICFR.py`: regret matching on the positive part
of `regret_sum`, uniform fallback, then `strategy_sum += p_player * strategy`.
Returns the strategy together with the updated node. -/
def FNode.getStrategy (n : FNode) : List ℚ × FNode :=
  let s := vmax0 n.regretSum
  let normalizingSum := s.sum
  let strat := if 0 < normalizingSum then vdiv s normalizingSum else unifStrat n.numActions
  (strat, { n with strategy := strat,
                   strategySum := vadd n.strategySum (vscale n.pPlayer strat) })

/-- Embeds `Node.get_average_strategy` of `FSICFR.py`: normalizes a copy of
`strategy_sum`; uniform fallback when the total is not positive.  The stored
`strategy_sum` is only read (the source normalizes `np.copy(strategy_sum)`). -/
def FNode.getAverageStrategy (n : FNode) : List ℚ :=
  let normalizingSum := n.strategySum.sum
  if 0 < normalizingSum then vdiv n.strategySum normalizingSum
  else unifStrat n.numActions

/-! ## `sequantial_strategy_manager.py`: class `SequentialStrategyManager`

The manager node used by `liar_die.py`; reach fields are `my_reach` /
`opp_reach`, the expected utility is `util`. -/

structure MNode where
  info : List Nat
  actions : List Nat
  numActions : Nat
  strategy : List ℚ
  strategySum : List ℚ
  regrets : List ℚ
  regretSum : List ℚ
  util : ℚ
  myReach : ℚ
  oppReach : ℚ
  deriving Repr, DecidableEq

/-- Embeds `SequentialStrategyManager.__init__(info, actions)` -/
def MNode.init (info actions : List Nat) : MNode :=
  { info := info
    actions := actions
    numActions := actions.length
    strategy := List.replicate actions.length 0
    strategySum := List.replicate actions.length 0
    regrets := List.replicate actions.length 0
    regretSum := List.replicate actions.length 0
    util := 0
    myReach := 0
    oppReach := 0 }

/-- Embeds `SequentialStrategyManager.normalize`: positive part divided by its sum,
zero array when the sum is zero. -/
def mgrNormalize (array : List ℚ) : List ℚ :=
  let positiveArray := vmax0 array
  let norm := positiveArray.sum
  if norm ≠ 0 then vdiv positiveArray norm else List.replicate positiveArray.length 0

/-- Embeds `SequentialStrategyManager.get_uniform_strategy` -/
def MNode.getUniformStrategy (n : MNode) : List ℚ := unifStrat n.numActions

/-- Embeds `SequentialStrategyManager.get_strategy`: `normalize(regret_sum)`, uniform
fallback when the normalized vector is all zero, then
`strategy_sum += my_reach * strategy`. -/
def MNode.getStrategy (n : MNode) : List ℚ × MNode :=
  let newStrategy := mgrNormalize n.regretSum
  let newStrategy' := if ∀ x ∈ newStrategy, x = 0 then n.getUniformStrategy else newStrategy
  (newStrategy', { n with strategy := newStrategy',
                          strategySum := vadd n.strategySum (vscale n.myReach newStrategy') })

/-- Embeds `SequentialStrategyManager.get_average_strategy`: normalizes a copy of
`strategy_sum`; uniform fallback when the total is not positive. -/
def MNode.getAverageStrategy (n : MNode) : List ℚ :=
  let normalizingSum := n.strategySum.sum
  if 0 < normalizingSum then vdiv n.strategySum normalizingSum
  else n.getUniformStrategy

/-- Embeds `SequentialStrategyManager.calculate_utility(child_utilities)`:
`util = Σ strategy[i] * child_utilities[i]` over indices valid for both
(the source guards `i < len(self.strategy)` while enumerating the children). -/
def calcUtility (strategy childUtilities : List ℚ) : ℚ :=
  (List.zipWith (fun s c => s * c) strategy childUtilities).sum

/-- Embeds `SequentialStrategyManager.update_regret_sum(regret)` (array pattern):
`for a in range(len(strategy)): regret[a] -= util; regret_sum[a] += opp_reach * regret[a]`. -/
def MNode.updateRegretSum (n : MNode) (regret : List ℚ) : MNode :=
  { n with regretSum := (mapIdxBelow (fun a x => x + n.oppReach * (regret.getD a 0 - n.util)) n.strategy.length 0 n.regretSum) }

/-- Embeds `SequentialStrategyManager.reset_reach_probabilities` -/
def MNode.resetReach (n : MNode) : MNode := { n with myReach := 0, oppReach := 0 }

/-! ## `sequantial_strategy_manager_copy.py`: class `SequentialStrategyManager`

The stripped-down copy used by `liar_die_copy.py`.  Its `normalize` divides
the *original* array by the positive-part sum, and its `get_strategy` falls
back to uniform only when `regret_sum` is exactly the zero vector. -/

structure CNode where
  numActions : Nat
  strategy : List ℚ
  strategySum : List ℚ
  regrets : List ℚ
  regretSum : List ℚ
  u : ℚ
  myReach : ℚ
  oppReach : ℚ
  deriving Repr, DecidableEq

/-- Embeds `SequentialStrategyManager.normalize` of the copy:
`array / max(0, array).sum()` when that sum is nonzero, else zeros. -/
def copyNormalize (array : List ℚ) : List ℚ :=
  let norm := (vmax0 array).sum
  if norm ≠ 0 then vdiv array norm else List.replicate array.length 0

/-- Embeds `SequentialStrategyManager.get_strategy` of the copy: normalize the
positive part of `regret_sum`; fall back to uniform only when
`np.all(regret_sum == 0)`; then `strategy_sum += my_reach * strategy`. -/
def CNode.getStrategy (n : CNode) : List ℚ × CNode :=
  let newStrategy := vmax0 n.regretSum
  let newStrategy' := copyNormalize newStrategy
  let newStrategy'' := if ∀ x ∈ n.regretSum, x = 0 then unifStrat n.numActions else newStrategy'
  (newStrategy'', { n with strategy := newStrategy'',
                           strategySum := vadd n.strategySum (vscale n.myReach newStrategy'') })

/-- Embeds `SequentialStrategyManager.get_average_strategy` of the copy:
`normalize(strategy_sum)` — zeros, not uniform, when the sum is zero. -/
def CNode.getAverageStrategy (n : CNode) : List ℚ := copyNormalize n.strategySum


/-! ## Claim C2: the recomputed strategy is a probability vector -/

theorem vmax0_sum_zero_replicate (k : Nat) : (vmax0 (List.replicate k 0)).sum = 0 := by
  simp [vmax0, List.map_replicate, List.sum_replicate]

/-- The strategy stored by `FNode.getStrategy` (definitional unfolding). -/
theorem fsicfr_getStrategy_strategy (n : FNode) :
    (FNode.getStrategy n).2.strategy =
      if 0 < (vmax0 n.regretSum).sum then vdiv (vmax0 n.regretSum) (vmax0 n.regretSum).sum
      else unifStrat n.numActions := rfl

/-- Counterexample node for C2: one action, accumulated regret `[-1]`. -/
def c2Node : CNode :=
  { numActions := 1, strategy := [0], strategySum := [0], regrets := [0],
    regretSum := [-1], u := 0, myReach := 0, oppReach := 0 }

/-- C2 (counterexample): in `sequantial_strategy_manager_copy.py`, recomputing
the strategy of a node whose accumulated regret is `[-1]` (every regret
non-positive, one action) yields the zero vector: it does not sum to 1 and is
not the uniform vector, contradicting the claim. -/
theorem c2_counterexample :
    (CNode.getStrategy c2Node).2.strategy = [0] ∧
    (CNode.getStrategy c2Node).2.strategy.sum ≠ 1 ∧
    (CNode.getStrategy c2Node).2.strategy ≠ unifStrat c2Node.numActions := by
  norm_num [CNode.getStrategy, c2Node, copyNormalize, vmax0, vdiv, unifStrat,
    List.forall_mem_cons]

/-- C2 (amended): immediately after `get_strategy`, the strategy of
`FSICFR.py`'s `Node` (same code in `FSICFR_refactored.py`) is non-negative
and sums to 1, and is the uniform vector whenever every accumulated regret is
non-positive.  In `sequantial_strategy_manager_copy.py`, however, the uniform
fallback triggers only when `regret_sum` is exactly zero: when every regret
is non-positive and at least one is strictly negative, the recomputed
strategy is the zero vector. -/
theorem c2_amended (fn : FNode) (cn : CNode) (hf : 0 < fn.numActions)
    (hc1 : ∀ x ∈ cn.regretSum, x ≤ 0) (hc2 : ∃ x ∈ cn.regretSum, x ≠ 0) :
    ((∀ x ∈ (FNode.getStrategy fn).2.strategy, 0 ≤ x) ∧
      (FNode.getStrategy fn).2.strategy.sum = 1 ∧
      ((∀ x ∈ fn.regretSum, x ≤ 0) →
        (FNode.getStrategy fn).2.strategy = unifStrat fn.numActions)) ∧
    (CNode.getStrategy cn).2.strategy = List.replicate cn.regretSum.length 0 := by
  constructor
  · rw [fsicfr_getStrategy_strategy]
    by_cases hpos : 0 < (vmax0 fn.regretSum).sum
    · rw [if_pos hpos]
      refine ⟨?_, ?_, ?_⟩
      · intro x hx
        rcases List.mem_map.mp hx with ⟨y, hy, rfl⟩
        exact div_nonneg (vmax0_nonneg _ y hy) (le_of_lt hpos)
      · rw [vdiv_sum, div_self (ne_of_gt hpos)]
      · intro hnp
        exfalso
        rw [vmax0_eq_zero_of_nonpos fn.regretSum hnp, List.sum_replicate] at hpos
        simp at hpos
    · rw [if_neg hpos]
      refine ⟨?_, unifStrat_sum fn.numActions hf, fun _ => rfl⟩
      intro x hx
      rcases List.mem_replicate.mp hx with ⟨_, rfl⟩
      positivity
  · have hnotall : ¬ (∀ x ∈ cn.regretSum, x = 0) := by
      rcases hc2 with ⟨x, hx, hxne⟩
      exact fun hall => hxne (hall x hx)
    have hstrat : (CNode.getStrategy cn).2.strategy =
        copyNormalize (vmax0 cn.regretSum) := by
      simp only [CNode.getStrategy, if_neg hnotall]
    rw [hstrat, vmax0_eq_zero_of_nonpos cn.regretSum hc1]
    have hz : (vmax0 (List.replicate cn.regretSum.length 0)).sum = 0 :=
      vmax0_sum_zero_replicate cn.regretSum.length
    simp only [copyNormalize, hz, ne_eq, not_true_eq_false, if_false,
      List.length_replicate]

/-- Witness for `c2_amended` at concrete inputs: a fresh two-action FSICFR
node and the `[-1]`-regret copy node. -/
theorem c2_amended_witness :
    (0 < (FNode.init 2).numActions ∧ (∀ x ∈ c2Node.regretSum, x ≤ 0) ∧
      (∃ x ∈ c2Node.regretSum, x ≠ 0)) ∧
    ((∀ x ∈ (FNode.getStrategy (FNode.init 2)).2.strategy, 0 ≤ x) ∧
      (FNode.getStrategy (FNode.init 2)).2.strategy.sum = 1 ∧
      ((∀ x ∈ (FNode.init 2).regretSum, x ≤ 0) →
        (FNode.getStrategy (FNode.init 2)).2.strategy = unifStrat (FNode.init 2).numActions)) ∧
    (CNode.getStrategy c2Node).2.strategy = List.replicate c2Node.regretSum.length 0 :=
  ⟨⟨by norm_num [FNode.init], by norm_num [c2Node], by norm_num [c2Node]⟩,
    c2_amended (FNode.init 2) c2Node (by norm_num [FNode.init])
      (by norm_num [c2Node]) (by norm_num [c2Node])⟩

/-! ## Claim C7: `get_average_strategy` -/

/-- Counterexample node for C7: one action, zero accumulated strategy sum in
the copy manager. -/
def c7Node : CNode :=
  { numActions := 1, strategy := [0], strategySum := [0], regrets := [0],
    regretSum := [0], u := 0, myReach := 0, oppReach := 0 }

/-- C7 (counterexample): `sequantial_strategy_manager_copy.py`'s
`get_average_strategy` on a node with zero `strategy_sum` returns the zero
vector, not the uniform vector, and it does not sum to 1. -/
theorem c7_counterexample :
    CNode.getAverageStrategy c7Node = [0] ∧
    CNode.getAverageStrategy c7Node ≠ unifStrat c7Node.numActions ∧
    (CNode.getAverageStrategy c7Node).sum ≠ 1 := by
  norm_num [CNode.getAverageStrategy, c7Node, copyNormalize, vmax0, vdiv, unifStrat]

/-- C7 (amended): `get_average_strategy` in `FSICFR.py` and
`sequantial_strategy_manager.py` returns `strategy_sum` divided by the sum of
its entries when that sum is positive and the uniform vector when the sum is
0, and in both cases the returned vector sums to 1; the stored `strategy_sum`
is only read (both sources normalize `np.copy(strategy_sum)`).  In
`sequantial_strategy_manager_copy.py`, a zero sum instead yields the zero
vector. -/
theorem c7_amended (fn : FNode) (mn : MNode) (cn : CNode)
    (hf : 0 < fn.numActions) (hm : 0 < mn.numActions)
    (hcz : ∀ x ∈ cn.strategySum, x ≤ 0) :
    ((0 < fn.strategySum.sum →
        FNode.getAverageStrategy fn = vdiv fn.strategySum fn.strategySum.sum) ∧
      (fn.strategySum.sum = 0 → FNode.getAverageStrategy fn = unifStrat fn.numActions) ∧
      (FNode.getAverageStrategy fn).sum = 1) ∧
    ((0 < mn.strategySum.sum →
        MNode.getAverageStrategy mn = vdiv mn.strategySum mn.strategySum.sum) ∧
      (mn.strategySum.sum = 0 → MNode.getAverageStrategy mn = unifStrat mn.numActions) ∧
      (MNode.getAverageStrategy mn).sum = 1) ∧
    (CNode.getAverageStrategy cn = List.replicate cn.strategySum.length 0) := by
  refine ⟨?_, ?_, ?_⟩
  · by_cases hpos : 0 < fn.strategySum.sum
    · refine ⟨fun _ => ?_, fun hz => absurd hz (ne_of_gt hpos), ?_⟩
      · simp only [FNode.getAverageStrategy, if_pos hpos]
      · simp only [FNode.getAverageStrategy, if_pos hpos]
        rw [vdiv_sum, div_self (ne_of_gt hpos)]
    · refine ⟨fun h => absurd h hpos, fun _ => ?_, ?_⟩
      · simp only [FNode.getAverageStrategy, if_neg hpos]
      · simp only [FNode.getAverageStrategy, if_neg hpos]
        exact unifStrat_sum fn.numActions hf
  · by_cases hpos : 0 < mn.strategySum.sum
    · refine ⟨fun _ => ?_, fun hz => absurd hz (ne_of_gt hpos), ?_⟩
      · simp only [MNode.getAverageStrategy, if_pos hpos]
      · simp only [MNode.getAverageStrategy, if_pos hpos]
        rw [vdiv_sum, div_self (ne_of_gt hpos)]
    · refine ⟨fun h => absurd h hpos, fun _ => ?_, ?_⟩
      · simp only [MNode.getAverageStrategy, MNode.getUniformStrategy, if_neg hpos]
      · simp only [MNode.getAverageStrategy, MNode.getUniformStrategy, if_neg hpos]
        exact unifStrat_sum mn.numActions hm
  · have hz : (vmax0 cn.strategySum).sum = 0 := by
      rw [vmax0_eq_zero_of_nonpos cn.strategySum hcz, List.sum_replicate]
      simp
    simp only [CNode.getAverageStrategy, copyNormalize, hz, ne_eq,
      not_true_eq_false, if_false]

/-- Witness for `c7_amended` at concrete inputs. -/
theorem c7_amended_witness :
    (0 < (FNode.init 2).numActions ∧ 0 < (MNode.init [0, 1] [0, 1]).numActions ∧
      (∀ x ∈ c7Node.strategySum, x ≤ 0)) ∧
    (FNode.getAverageStrategy (FNode.init 2)).sum = 1 ∧
    (MNode.getAverageStrategy (MNode.init [0, 1] [0, 1])).sum = 1 ∧
    CNode.getAverageStrategy c7Node = List.replicate c7Node.strategySum.length 0 :=
  ⟨⟨by norm_num [FNode.init], by norm_num [MNode.init], by norm_num [c7Node]⟩,
    (c7_amended (FNode.init 2) (MNode.init [0, 1] [0, 1]) c7Node (by norm_num [FNode.init])
      (by norm_num [MNode.init]) (by norm_num [c7Node])).1.2.2,
    (c7_amended (FNode.init 2) (MNode.init [0, 1] [0, 1]) c7Node (by norm_num [FNode.init])
      (by norm_num [MNode.init]) (by norm_num [c7Node])).2.1.2.2,
    (c7_amended (FNode.init 2) (MNode.init [0, 1] [0, 1]) c7Node (by norm_num [FNode.init])
      (by norm_num [MNode.init]) (by norm_num [c7Node])).2.2⟩

/-! ## `liar_die.py`: `LiarDieTrainer.__init__` and the node maps (C8, C9)

`liar_die.py` validates `sides` before creating any node, then fills two
`SequentialStrategyManagerMap`s keyed by `(my_claim, opponent_claim)` and
`(opponent_claim, roll)`.  The dicts are embedded as association lists built
in loop order; `get_node` is `dict.get(key, None)`. -/

def DOUBT : Nat := 0

def ACCEPT : Nat := 1

def MAX_SIDES_LIMIT : Nat := 20

/-- Actions of a response node (`liar_die.py.__init__`):
`[ACCEPT] if opponent_claim == 0 else [DOUBT] if opponent_claim == sides
else [DOUBT, ACCEPT]`. -/
def responseActions (sides oppClaim : Nat) : List Nat :=
  if oppClaim = 0 then [ACCEPT]
  else if oppClaim = sides then [DOUBT]
  else [DOUBT, ACCEPT]

/-- Actions of a claim node: `list(range(opponent_claim + 1, sides + 1))`. -/
def claimActions (sides oppClaim : Nat) : List Nat :=
  (List.range (sides - oppClaim)).map (fun k => oppClaim + 1 + k)

/-- The response keys inserted by the construction loop
(`for my_claim in range(sides + 1): for opponent_claim in
range(my_claim + 1, sides + 1)`), in loop order. -/
def responseKeys (sides : Nat) : List (Nat × Nat) :=
  (List.range (sides + 1)).flatMap
    (fun my => (List.range (sides - my)).map (fun k => (my, my + 1 + k)))

/-- The claim keys inserted by the construction loop
(`for opponent_claim in range(sides): for roll in range(1, sides + 1)`). -/
def claimKeys (sides : Nat) : List (Nat × Nat) :=
  (List.range sides).flatMap
    (fun opp => (List.range sides).map (fun k => (opp, 1 + k)))

/-- Embeds `response_map` contents right after `LiarDieTrainer.__init__`. -/
def ldResponseMap (sides : Nat) : List ((Nat × Nat) × MNode) :=
  (responseKeys sides).map
    (fun p => (p, MNode.init [p.1, p.2] (responseActions sides p.2)))

/-- Embeds `claim_map` contents right after `LiarDieTrainer.__init__`. -/
def ldClaimMap (sides : Nat) : List ((Nat × Nat) × MNode) :=
  (claimKeys sides).map
    (fun p => (p, MNode.init [p.1, p.2] (claimActions sides p.1)))

/-- Embeds `SequentialStrategyManagerMap.get_node(info)`:
`self.node_map.get(tuple(info), None)`. -/
def mapGetNode (m : List ((Nat × Nat) × MNode)) (key : Nat × Nat) : Option MNode :=
  (m.find? (fun e => e.1 == key)).map (fun e => e.2)

/-- The data held by a successfully constructed `liar_die.py` trainer. -/
structure LDTrainerData where
  sides : Nat
  responseMap : List ((Nat × Nat) × MNode)
  claimMap : List ((Nat × Nat) × MNode)
  deriving Repr, DecidableEq

/-- Embeds `LiarDieTrainer.__init__(sides)` of `liar_die.py`: raises `ValueError`
for `sides <= 0` and for `sides > MAX_SIDES_LIMIT` before any node is
created; otherwise builds both node maps.  The Python `int` argument is
embedded as `ℤ`. -/
def liarDieTrainerInit (sides : ℤ) : Except String LDTrainerData :=
  if sides ≤ 0 then Except.error ("Number of sides must be positive")
  else if (MAX_SIDES_LIMIT : ℤ) < sides then
    Except.error ("Number of sides too large (max: 20)")
  else Except.ok
    { sides := sides.toNat
      responseMap := ldResponseMap sides.toNat
      claimMap := ldClaimMap sides.toNat }

/-- The data held by a constructed `FSICFR.py` trainer: `__init__` performs
no validation; it allocates two numpy object arrays of shape
`(sides + 1, sides + 1)` (numpy rejects negative dimensions) and fills the
cells visited by its loops, leaving every other cell `None`. -/
structure FTrainerData where
  sides : ℤ
  responseAllocated : ℤ → ℤ → Bool
  claimAllocated : ℤ → ℤ → Bool

/-- Embeds `LiarDieTrainer.__init__(sides)` of `FSICFR.py` (the allocation shape;
node contents are `Node(num_actions)` as in `FNode.init`). -/
def fsicfrTrainerInit (sides : ℤ) : Except String FTrainerData :=
  if sides + 1 < 0 then Except.error ("negative dimensions are not allowed")
  else Except.ok
    { sides := sides
      responseAllocated := fun my opp =>
        decide (0 ≤ my ∧ my < sides ∧ my < opp ∧ opp ≤ sides)
      claimAllocated := fun opp roll =>
        decide (0 ≤ opp ∧ opp < sides ∧ 1 ≤ roll ∧ roll ≤ sides) }

/-- C8 (counterexample): `sides = 21` is `≥ 1` yet `liar_die.py` construction
fails (its constructor also rejects `sides > 20`), and `sides = 0` is `≤ 0`
yet `FSICFR.py` construction succeeds (it performs no validation and builds
an empty graph). -/
theorem c8_counterexample :
    liarDieTrainerInit 21 = Except.error ("Number of sides too large (max: 20)") ∧
    (fsicfrTrainerInit 0).isOk = true := by
  constructor
  · rfl
  · rfl

/-- C8 (amended): `liar_die.py`'s constructor fails with `ValueError` for
every `sides ≤ 0` — the check precedes all node allocation, so no partial
graph is built — and also for every `sides > 20`; it succeeds exactly for
`1 ≤ sides ≤ 20`.  `FSICFR.py`'s constructor performs no such validation and
succeeds for every `sides ≥ -1` (numpy only rejects a negative array shape),
building an empty graph when `sides ≤ 0`. -/
theorem c8_amended (sides : ℤ) :
    (sides ≤ 0 → liarDieTrainerInit sides = Except.error ("Number of sides must be positive")) ∧
    ((MAX_SIDES_LIMIT : ℤ) < sides →
      liarDieTrainerInit sides = Except.error ("Number of sides too large (max: 20)")) ∧
    (1 ≤ sides → sides ≤ (MAX_SIDES_LIMIT : ℤ) → (liarDieTrainerInit sides).isOk = true) ∧
    (-1 ≤ sides → (fsicfrTrainerInit sides).isOk = true) := by
  refine ⟨?_, ?_, ?_, ?_⟩
  · intro h
    simp only [liarDieTrainerInit, if_pos h]
  · intro h
    have h0 : ¬ sides ≤ 0 := by
      simp only [MAX_SIDES_LIMIT] at h
      omega
    simp only [liarDieTrainerInit, if_neg h0, if_pos h]
  · intro h1 h2
    have h0 : ¬ sides ≤ 0 := by omega
    have h3 : ¬ (MAX_SIDES_LIMIT : ℤ) < sides := by simpa using not_lt.mpr h2
    simp only [liarDieTrainerInit, if_neg h0, if_neg h3, Except.isOk, Except.toBool]
  · intro h
    have h0 : ¬ sides + 1 < 0 := by omega
    simp only [fsicfrTrainerInit, if_neg h0, Except.isOk, Except.toBool]

/-- Witness for `c8_amended` at concrete inputs `sides = -2`, `21`, `6`, `0`. -/
theorem c8_amended_witness :
    liarDieTrainerInit (-2) = Except.error ("Number of sides must be positive") ∧
    liarDieTrainerInit 21 = Except.error ("Number of sides too large (max: 20)") ∧
    (liarDieTrainerInit 6).isOk = true ∧
    (fsicfrTrainerInit 0).isOk = true :=
  ⟨(c8_amended (-2)).1 (by norm_num),
    (c8_amended 21).2.1 (by norm_num [MAX_SIDES_LIMIT]),
    (c8_amended 6).2.2.1 (by norm_num) (by norm_num [MAX_SIDES_LIMIT]),
    (c8_amended 0).2.2.2 (by norm_num)⟩

/-! ## Claim C9: node lookup -/

theorem mem_responseKeys (sides my opp : Nat) :
    (my, opp) ∈ responseKeys sides ↔ my < opp ∧ opp ≤ sides := by
  simp only [responseKeys, List.mem_flatMap, List.mem_map, List.mem_range, Prod.mk.injEq]
  constructor
  · rintro ⟨a, ha, k, hk, rfl, rfl⟩
    omega
  · rintro ⟨h1, h2⟩
    exact ⟨my, by omega, ⟨opp - my - 1, by omega, rfl, by omega⟩⟩

theorem mem_claimKeys (sides opp roll : Nat) :
    (opp, roll) ∈ claimKeys sides ↔ opp < sides ∧ 1 ≤ roll ∧ roll ≤ sides := by
  simp only [claimKeys, List.mem_flatMap, List.mem_map, List.mem_range, Prod.mk.injEq]
  constructor
  · rintro ⟨a, ha, k, hk, rfl, rfl⟩
    omega
  · rintro ⟨h1, h2, h3⟩
    exact ⟨opp, h1, ⟨roll - 1, by omega, rfl, by omega⟩⟩

theorem find_keyedMap_of_mem (f : Nat × Nat → MNode) (keys : List (Nat × Nat))
    (k : Nat × Nat) (h : k ∈ keys) :
    (keys.map (fun p => (p, f p))).find? (fun e => e.1 == k) = some (k, f k) := by
  induction keys with
  | nil => cases h
  | cons a t ih =>
    by_cases hak : a = k
    · subst hak
      rw [List.map_cons]
      exact List.find?_cons_of_pos _ (by simp)
    · rw [List.map_cons, List.find?_cons_of_neg]
      · exact ih ((List.mem_cons.mp h).resolve_left (fun heq => hak heq.symm))
      · simp [hak]

theorem find_keyedMap_of_not_mem (f : Nat × Nat → MNode) (keys : List (Nat × Nat))
    (k : Nat × Nat) (h : k ∉ keys) :
    (keys.map (fun p => (p, f p))).find? (fun e => e.1 == k) = none := by
  induction keys with
  | nil => rfl
  | cons a t ih =>
    rw [List.map_cons, List.find?_cons_of_neg, ih (fun hk => h (List.mem_cons_of_mem a hk))]
    simp only [decide_eq_true_eq, beq_iff_eq]
    intro heq
    exact absurd (heq ▸ List.mem_cons_self a t) h

/-- C9 (counterexample): looking up invalid keys — claim key `(0, 0)` whose
outcome 0 is outside `[1, sides]`, and response key `(2, 1)` whose own level
is not below the opponent level — returns `None` (an empty result handed back
to the caller), not an internal-consistency error. -/
theorem c9_counterexample :
    mapGetNode (ldClaimMap 2) (0, 0) = none ∧
    mapGetNode (ldResponseMap 2) (2, 1) = none := by
  constructor
  · rfl
  · rfl

/-- C9 (amended): after construction with a given `sides`, `get_node` is
total over the valid key domain — a response key `(my, opp)` with
`my < opp ≤ sides` or a claim key `(opp, roll)` with `opp < sides` and
`roll ∈ [1, sides]` returns exactly the node allocated at construction — but
a key outside that domain returns `None` (`dict.get` default) rather than
failing fast with an error; the caller only fails later, with
`AttributeError`, when it uses the `None`. -/
theorem c9_amended (sides my opp roll : Nat) :
    (my < opp ∧ opp ≤ sides →
      mapGetNode (ldResponseMap sides) (my, opp) =
        some (MNode.init [my, opp] (responseActions sides opp))) ∧
    (¬ (my < opp ∧ opp ≤ sides) →
      mapGetNode (ldResponseMap sides) (my, opp) = none) ∧
    (opp < sides ∧ 1 ≤ roll ∧ roll ≤ sides →
      mapGetNode (ldClaimMap sides) (opp, roll) =
        some (MNode.init [opp, roll] (claimActions sides opp))) ∧
    (¬ (opp < sides ∧ 1 ≤ roll ∧ roll ≤ sides) →
      mapGetNode (ldClaimMap sides) (opp, roll) = none) := by
  refine ⟨?_, ?_, ?_, ?_⟩
  · intro h
    have hmem := (mem_responseKeys sides my opp).mpr h
    simp only [mapGetNode, ldResponseMap,
      find_keyedMap_of_mem (fun p => MNode.init [p.1, p.2] (responseActions sides p.2))
        (responseKeys sides) (my, opp) hmem, Option.map_some']
  · intro h
    have hmem := fun hm => h ((mem_responseKeys sides my opp).mp hm)
    simp only [mapGetNode, ldResponseMap,
      find_keyedMap_of_not_mem (fun p => MNode.init [p.1, p.2] (responseActions sides p.2))
        (responseKeys sides) (my, opp) hmem, Option.map_none']
  · intro h
    have hmem := (mem_claimKeys sides opp roll).mpr h
    simp only [mapGetNode, ldClaimMap,
      find_keyedMap_of_mem (fun p => MNode.init [p.1, p.2] (claimActions sides p.1))
        (claimKeys sides) (opp, roll) hmem, Option.map_some']
  · intro h
    have hmem := fun hm => h ((mem_claimKeys sides opp roll).mp hm)
    simp only [mapGetNode, ldClaimMap,
      find_keyedMap_of_not_mem (fun p => MNode.init [p.1, p.2] (claimActions sides p.1))
        (claimKeys sides) (opp, roll) hmem, Option.map_none']

/-- Witness for `c9_amended` at `sides = 2` with the valid keys `(0, 1)`
(response) and `(1, 2)` (claim) and invalid keys `(2, 1)`/`(1, 0)`. -/
theorem c9_amended_witness :
    mapGetNode (ldResponseMap 2) (0, 1) =
      some (MNode.init [0, 1] (responseActions 2 1)) ∧
    mapGetNode (ldResponseMap 2) (2, 1) = none ∧
    mapGetNode (ldClaimMap 2) (1, 2) =
      some (MNode.init [1, 2] (claimActions 2 1)) ∧
    mapGetNode (ldClaimMap 2) (1, 0) = none :=
  ⟨(c9_amended 2 0 1 1).1 (by norm_num),
    (c9_amended 2 2 1 1).2.1 (by norm_num),
    (c9_amended 2 0 1 2).2.2.1 (by norm_num),
    (c9_amended 2 0 1 0).2.2.2 (by norm_num)⟩

/-! ## `liar_die.py`: training iteration dynamics

The trainer's per-iteration state: both node maps, as total functions from
keys to manager nodes (the dynamics only ever touch keys created at
construction). -/

structure LDState where
  claimN : Nat → Nat → MNode
  respN : Nat → Nat → MNode

def setClaimNode (st : LDState) (a b : Nat) (nd : MNode) : LDState :=
  { st with claimN := fun i j => if i = a ∧ j = b then nd else st.claimN i j }

def setRespNode (st : LDState) (a b : Nat) (nd : MNode) : LDState :=
  { st with respN := fun i j => if i = a ∧ j = b then nd else st.respN i j }

/-- Node maps as produced by `liar_die.py.__init__` (every valid key holds a
fresh manager node; the dynamics never read invalid keys). -/
def ldFreshState (sides : Nat) : LDState :=
  { claimN := fun opp roll => MNode.init [opp, roll] (claimActions sides opp)
    respN := fun my opp => MNode.init [my, opp] (responseActions sides opp) }

/-- The per-iteration chance draws of `liar_die.py.initialize`:
`np.random.randint(1, sides + 1, size=sides)` — `sides` draws, one per index
`0 .. sides - 1`, abstracted over the random source `draw`. -/
def ldFixRolls (sides : Nat) (draw : Nat → Nat) : List Nat :=
  (List.range sides).map draw

/-- The root-setting part of `liar_die.py.initialize`:
`claim_map.get_node([0, fixed_roll[0]]).initialize_reach_probabilities(1.0, 1.0)`
— both reach fields are assigned (not incremented) 1.0. -/
def ldSetRoot (fixedRoll : List Nat) (st : LDState) : LDState :=
  let nd := st.claimN 0 (fixedRoll.getD 0 0)
  setClaimNode st 0 (fixedRoll.getD 0 0) { nd with myReach := 1, oppReach := 1 }

/-- One body of the `for my_claim in range(opponent_claim)` loop of
`forward_accumulate_response`: recompute the node's strategy, then (unless
`opponent_claim >= sides`) push the accept-branch mass into the claim node at
`(opponent_claim, fixed_roll[opponent_claim])` via `update_reach_probability`
(`my_reach += prob[ACCEPT] * node.my_reach`, `opp_reach += node.opp_reach`). -/
def ldFwdRespStep (sides : Nat) (roll : Nat → Nat) (opp my : Nat) (st : LDState) : LDState :=
  let node := st.respN my opp
  let res := MNode.getStrategy node
  let st1 := setRespNode st my opp res.2
  if sides ≤ opp then st1
  else
    let nn := st1.claimN opp (roll opp)
    setClaimNode st1 opp (roll opp)
      { nn with myReach := nn.myReach + res.1.getD ACCEPT 0 * res.2.myReach,
                oppReach := nn.oppReach + res.2.oppReach }

def ldFwdRespLoop (sides : Nat) (roll : Nat → Nat) (opp : Nat) : Nat → LDState → LDState
  | 0, st => st
  | k + 1, st => ldFwdRespStep sides roll opp k (ldFwdRespLoop sides roll opp k st)

/-- Embeds `forward_accumulate_response(opponent_claim, fixed_roll)`. -/
def ldFwdResponse (sides : Nat) (roll : Nat → Nat) (opp : Nat) (st : LDState) : LDState :=
  if opp = 0 then st else ldFwdRespLoop sides roll opp opp st

/-- The push loop of `forward_accumulate_claim`: for `my_claim` from
`opponent_claim + 1` to `sides`, skip probabilities `<= 0`, otherwise push
swapped reach mass into response node `(opponent_claim, my_claim)`:
`my_reach += node.opp_reach` and `opp_reach += prob * node.my_reach`. -/
def ldFwdClaimPush (prob : List ℚ) (nd : MNode) (opp : Nat) : Nat → LDState → LDState
  | 0, st => st
  | k + 1, st =>
    let st1 := ldFwdClaimPush prob nd opp k st
    let my := opp + 1 + k
    let p := prob.getD (my - opp - 1) 0
    if p ≤ 0 then st1
    else
      let nn := st1.respN opp my
      setRespNode st1 opp my
        { nn with myReach := nn.myReach + nd.oppReach,
                  oppReach := nn.oppReach + p * nd.myReach }

/-- Embeds `forward_accumulate_claim(opponent_claim, fixed_roll)`. -/
def ldFwdClaim (sides : Nat) (roll : Nat → Nat) (opp : Nat) (st : LDState) : LDState :=
  if sides ≤ opp then st
  else
    let node := st.claimN opp (roll opp)
    let res := MNode.getStrategy node
    let st1 := setClaimNode st opp (roll opp) res.2
    ldFwdClaimPush res.1 res.2 opp (sides - opp) st1

def ldFwdLevels (sides : Nat) (roll : Nat → Nat) : Nat → LDState → LDState
  | 0, st => ldFwdClaim sides roll 0 (ldFwdResponse sides roll 0 st)
  | k + 1, st =>
      ldFwdClaim sides roll (k + 1)
        (ldFwdResponse sides roll (k + 1) (ldFwdLevels sides roll k st))

/-- Embeds `forward_accumulation(fixed_roll)`: levels `0 .. sides` increasing,
response nodes before the claim node at each level. -/
def ldForward (sides : Nat) (roll : Nat → Nat) (st : LDState) : LDState :=
  ldFwdLevels sides roll sides st

/-- The regret-array fill loop of `backward_propagate_claim`:
`regret[my - opp - 1] = -response(opp, my).util` for `my` in `(opp, sides]`. -/
def ldBwdClaimRegret (st : LDState) (opp : Nat) : Nat → List ℚ → List ℚ
  | 0, r => r
  | k + 1, r => (ldBwdClaimRegret st opp k r).set k (-(st.respN opp (opp + 1 + k)).util)

/-- Embeds `backward_propagate_claim(opponent_claim, fixed_roll)`:
`calculate_utility`, `update_regret_sum`, `reset_reach_probabilities` on the
claim node at `(opp, fixed_roll[opp])` (no reached-check in this variant). -/
def ldBwdClaim (sides : Nat) (roll : Nat → Nat) (opp : Nat) (st : LDState) : LDState :=
  if sides ≤ opp then st
  else
    let node := st.claimN opp (roll opp)
    let regret := ldBwdClaimRegret st opp (sides - opp) (List.replicate node.numActions 0)
    let n1 := { node with util := calcUtility node.strategy regret }
    let n2 := MNode.updateRegretSum n1 regret
    setClaimNode st opp (roll opp) (MNode.resetReach n2)

/-- One body of the response loop in `backward_propagate_response`:
`regret = [doubt_util, accept_val]` with
`doubt_util = 1.0 if opponent_claim > fixed_roll[my_claim] else -1.0`
(the roll is indexed by the node's own level `my_claim`) and
`accept_val = claim_node(opp, fixed_roll[opp]).util if opp < sides else 0.0`
(not negated); then `calculate_utility`, `update_regret_sum`,
`reset_reach_probabilities`. -/
def ldBwdRespStep (sides : Nat) (roll : Nat → Nat) (opp my : Nat) (st : LDState) : LDState :=
  let node := st.respN my opp
  let doubtUtil : ℚ := if roll my < opp then 1 else -1
  let acceptVal : ℚ := if opp < sides then (st.claimN opp (roll opp)).util else 0
  let regret : List ℚ := [doubtUtil, acceptVal]
  let n1 := { node with util := calcUtility node.strategy regret }
  let n2 := MNode.updateRegretSum n1 regret
  setRespNode st my opp (MNode.resetReach n2)

def ldBwdRespLoop (sides : Nat) (roll : Nat → Nat) (opp : Nat) : Nat → LDState → LDState
  | 0, st => st
  | k + 1, st => ldBwdRespStep sides roll opp k (ldBwdRespLoop sides roll opp k st)

/-- Embeds `backward_propagate_response(opponent_claim, fixed_roll)`. -/
def ldBwdResponse (sides : Nat) (roll : Nat → Nat) (opp : Nat) (st : LDState) : LDState :=
  if opp = 0 then st else ldBwdRespLoop sides roll opp opp st

def ldBwdLevels (sides : Nat) (roll : Nat → Nat) : Nat → LDState → LDState
  | 0, st => ldBwdResponse sides roll 0 (ldBwdClaim sides roll 0 st)
  | k + 1, st =>
      ldBwdLevels sides roll k
        (ldBwdResponse sides roll (k + 1) (ldBwdClaim sides roll (k + 1) st))

/-- Embeds `backward_propagation(fixed_roll)`: levels `sides .. 0` decreasing, claim
node before response nodes at each level. -/
def ldBackward (sides : Nat) (roll : Nat → Nat) (st : LDState) : LDState :=
  ldBwdLevels sides roll sides st

/-- Embeds `reset_all_strategy_sums` over both maps (`strategy_sum.fill(0.0)`). -/
def ldZeroStrategySums (st : LDState) : LDState :=
  { claimN := fun i j =>
      { st.claimN i j with
          strategySum := List.replicate (st.claimN i j).strategySum.length 0 }
    respN := fun i j =>
      { st.respN i j with
          strategySum := List.replicate (st.respN i j).strategySum.length 0 } }

/-- Embeds `reset_strategy_sum(iteration, iterations)` of `liar_die.py`. -/
def ldResetStrategySum (iteration iterations : Nat) (st : LDState) : LDState :=
  if iteration = iterations / 2 then ldZeroStrategySums st else st

/-- One body of `liar_die.py.train`'s loop: draw and set the root, forward
accumulation, backward propagation, then the conditional midpoint reset. -/
def ldIterationBody (sides : Nat) (draw : Nat → Nat) (iteration iterations : Nat)
    (st : LDState) : LDState :=
  let fr := ldFixRolls sides draw
  let roll := fun i => fr.getD i 0
  ldResetStrategySum iteration iterations
    (ldBackward sides roll (ldForward sides roll (ldSetRoot fr st)))

/-! ## `FSICFR.py` / `FSICFR_refactored.py`: training iteration dynamics -/

structure FState where
  responseNodes : Nat → Nat → FNode
  claimNodes : Nat → Nat → FNode

def setFResp (st : FState) (a b : Nat) (nd : FNode) : FState :=
  { st with responseNodes := fun i j => if i = a ∧ j = b then nd else st.responseNodes i j }

def setFClaim (st : FState) (a b : Nat) (nd : FNode) : FState :=
  { st with claimNodes := fun i j => if i = a ∧ j = b then nd else st.claimNodes i j }

/-- Node arrays right after `__init__` of `FSICFR.py` (`FSICFR_refactored.py`
allocates identically): response nodes get 1 action at the extremes of the
opponent level and 2 otherwise; claim nodes get `sides - opp_claim` actions.
Cells outside the allocation loops are `None` in the source and never read. -/
def fsicfrFreshState (sides : Nat) : FState :=
  { responseNodes := fun _ opp => FNode.init (if opp = 0 ∨ opp = sides then 1 else 2)
    claimNodes := fun opp _ => FNode.init (sides - opp) }

/-- The per-iteration chance draws of `FSICFR.py.train`
(`for i in range(sides + 1): roll_after_accepting_claim[i] =
random.randint(1, sides)`) and of
`FSICFR_refactored._initialize_chance_events`
(`np.random.randint(1, sides + 1, size=sides + 1)`): `sides + 1` draws. -/
def fsicfrFixRolls (sides : Nat) (draw : Nat → Nat) : List Nat :=
  (List.range (sides + 1)).map draw

/-- Start of each `FSICFR.py` iteration:
`claim_nodes[0, roll0].p_player = 1.0` and `.p_opponent = 1.0`
(assignment, not accumulation). -/
def fsicfrSetRoot (roll : Nat → Nat) (st : FState) : FState :=
  let nd := st.claimNodes 0 (roll 0)
  setFClaim st 0 (roll 0) { nd with pPlayer := 1, pOpponent := 1 }

/-- Response-node forward body of `FSICFR.py.train`: skip if unreached,
recompute the strategy, then if `opp_claim < sides` push the accept mass:
`p_player += prob[ACCEPT] * node.p_player`, `p_opponent += node.p_opponent`. -/
def fFwdRespStep (sides : Nat) (roll : Nat → Nat) (opp my : Nat) (st : FState) : FState :=
  let node := st.responseNodes my opp
  if node.pPlayer = 0 ∧ node.pOpponent = 0 then st
  else
    let res := FNode.getStrategy node
    let st1 := setFResp st my opp res.2
    if opp < sides then
      let nn := st1.claimNodes opp (roll opp)
      setFClaim st1 opp (roll opp)
        { nn with pPlayer := nn.pPlayer + res.1.getD ACCEPT 0 * res.2.pPlayer,
                  pOpponent := nn.pOpponent + res.2.pOpponent }
    else st1

def fFwdRespLoop (sides : Nat) (roll : Nat → Nat) (opp : Nat) : Nat → FState → FState
  | 0, st => st
  | k + 1, st => fFwdRespStep sides roll opp k (fFwdRespLoop sides roll opp k st)

/-- Claim-node forward push loop of `FSICFR.py.train`: skip zero
probabilities, then `p_player += prob * node.p_player`,
`p_opponent += node.p_opponent` — the reach roles are *not* swapped, despite
the in-source comment announcing a swap. -/
def fFwdClaimPush (prob : List ℚ) (nd : FNode) (opp : Nat) : Nat → FState → FState
  | 0, st => st
  | k + 1, st =>
    let st1 := fFwdClaimPush prob nd opp k st
    let my := opp + 1 + k
    let p := prob.getD (my - opp - 1) 0
    if p = 0 then st1
    else
      let nn := st1.responseNodes opp my
      setFResp st1 opp my
        { nn with pPlayer := nn.pPlayer + p * nd.pPlayer,
                  pOpponent := nn.pOpponent + nd.pOpponent }

/-- Claim-node forward block of `FSICFR.py.train` (and of
`FSICFR_refactored._forward_pass`, whose `opp_clm == sides: continue` guard
is equivalent): skip at the top level or when unreached, else recompute the
strategy and run the push loop. -/
def fFwdClaimBlock (sides : Nat) (roll : Nat → Nat) (opp : Nat) (st : FState) : FState :=
  if opp < sides then
    let node := st.claimNodes opp (roll opp)
    if node.pPlayer = 0 ∧ node.pOpponent = 0 then st
    else
      let res := FNode.getStrategy node
      let st1 := setFClaim st opp (roll opp) res.2
      fFwdClaimPush res.1 res.2 opp (sides - opp) st1
  else st

/-- One level of `FSICFR.py`'s interleaved forward pass: the response nodes
of this `opp_claim` (when positive), then the claim node of this level. -/
def fFwdLevel (sides : Nat) (roll : Nat → Nat) (opp : Nat) (st : FState) : FState :=
  fFwdClaimBlock sides roll opp
    (if opp = 0 then st else fFwdRespLoop sides roll opp opp st)

def fFwdLevels (sides : Nat) (roll : Nat → Nat) : Nat → FState → FState
  | 0, st => fFwdLevel sides roll 0 st
  | k + 1, st => fFwdLevel sides roll (k + 1) (fFwdLevels sides roll k st)

/-- The forward pass of `FSICFR.py.train`: one ascending sweep, with the
response block and claim block interleaved per level. -/
def fsicfrForward (sides : Nat) (roll : Nat → Nat) (st : FState) : FState :=
  fFwdLevels sides roll sides st

/-- Response-node body of `FSICFR_refactored._forward_pass`: the zero-reach
skip precedes an `opp_clm == sides` skip, which precedes the strategy
recomputation — so a response node at the top level never recomputes its
strategy here.  (That skip compares against the module-level global `sides`;
it equals `self.sides` in the shipped `__main__` run, and is unreachable in
the executions analyzed below.) -/
def rFwdRespStep (sides : Nat) (roll : Nat → Nat) (opp my : Nat) (st : FState) : FState :=
  let node := st.responseNodes my opp
  if node.pPlayer = 0 ∧ node.pOpponent = 0 then st
  else if opp = sides then st
  else
    let res := FNode.getStrategy node
    let st1 := setFResp st my opp res.2
    let nn := st1.claimNodes opp (roll opp)
    setFClaim st1 opp (roll opp)
      { nn with pPlayer := nn.pPlayer + res.1.getD ACCEPT 0 * res.2.pPlayer,
                pOpponent := nn.pOpponent + res.2.pOpponent }

def rFwdRespLoop (sides : Nat) (roll : Nat → Nat) (opp : Nat) : Nat → FState → FState
  | 0, st => st
  | k + 1, st => rFwdRespStep sides roll opp k (rFwdRespLoop sides roll opp k st)

/-- The first loop of `FSICFR_refactored._forward_pass`: *all* response
levels `1 .. sides`, in increasing order. -/
def rFwdRespLevels (sides : Nat) (roll : Nat → Nat) : Nat → FState → FState
  | 0, st => st
  | k + 1, st => rFwdRespLoop sides roll (k + 1) (k + 1) (rFwdRespLevels sides roll k st)

/-- The second loop of `FSICFR_refactored._forward_pass`: *all* claim levels
`0 .. sides`, in increasing order. -/
def rFwdClaimLevels (sides : Nat) (roll : Nat → Nat) : Nat → FState → FState
  | 0, st => fFwdClaimBlock sides roll 0 st
  | k + 1, st => fFwdClaimBlock sides roll (k + 1) (rFwdClaimLevels sides roll k st)

/-- Embeds `_forward_pass` of `FSICFR_refactored.py`: unlike `FSICFR.py`, the
complete response loop over all levels runs before the complete claim loop. -/
def refactoredForward (sides : Nat) (roll : Nat → Nat) (st : FState) : FState :=
  rFwdClaimLevels sides roll sides (rFwdRespLevels sides roll sides st)

/-- The child loop of the backward claim block: accumulates the regret array
(`regret[idx] = -(response child).u`) and the node utility
(`u += strategy[idx] * child_util`). -/
def fBwdClaimChildLoop (st : FState) (opp : Nat) (prob : List ℚ) :
    Nat → List ℚ × ℚ → List ℚ × ℚ
  | 0, acc => acc
  | k + 1, acc =>
    let acc1 := fBwdClaimChildLoop st opp prob k acc
    let childUtil := -(st.responseNodes opp (opp + 1 + k)).u
    (acc1.1.set k childUtil, acc1.2 + prob.getD k 0 * childUtil)

/-- Claim-node backward body of `FSICFR.py.train` (identical in
`FSICFR_refactored._backward_pass`): compute utility and regrets from the
negated child utilities, accumulate
`regret_sum[a] += p_opponent * (regret[a] - u)`, and zero both reaches. -/
def fBwdClaimBody (sides : Nat) (roll : Nat → Nat) (opp : Nat) (st : FState) : FState :=
  let node := st.claimNodes opp (roll opp)
  let acc := fBwdClaimChildLoop st opp node.strategy (sides - opp)
    (List.replicate node.numActions 0, 0)
  let newRegretSum := mapIdxBelow
    (fun a x => x + node.pOpponent * (acc.1.getD a 0 - acc.2)) node.numActions 0 node.regretSum
  setFClaim st opp (roll opp)
    { node with u := acc.2, regretSum := newRegretSum, pPlayer := 0, pOpponent := 0 }

/-- Response-node backward body of `FSICFR.py.train` (identical in
`FSICFR_refactored._backward_pass`): skip if unreached; the doubt utility is
`1 if opp_claim > roll_after_accepting_claim[opp_claim] else -1` — indexed by
the *opponent's* level `opp_claim`; the accept utility (when
`opp_claim < sides`) is the negated utility of the next claim node. -/
def fBwdRespStep (sides : Nat) (roll : Nat → Nat) (opp my : Nat) (st : FState) : FState :=
  let node := st.responseNodes my opp
  if node.pPlayer = 0 ∧ node.pOpponent = 0 then st
  else
    let doubtUtil : ℚ := if roll opp < opp then 1 else -1
    let regret0 := (List.replicate node.numActions 0).set DOUBT doubtUtil
    let u0 : ℚ := node.strategy.getD DOUBT 0 * doubtUtil
    let acceptUtil : ℚ := -(st.claimNodes opp (roll opp)).u
    let regret := if opp < sides then regret0.set ACCEPT acceptUtil else regret0
    let u := if opp < sides then u0 + node.strategy.getD ACCEPT 0 * acceptUtil else u0
    let newRegretSum := mapIdxBelow
      (fun a x => x + node.pOpponent * (regret.getD a 0 - u)) node.numActions 0 node.regretSum
    setFResp st my opp
      { node with u := u, regretSum := newRegretSum, pPlayer := 0, pOpponent := 0 }

def fBwdRespLoop (sides : Nat) (roll : Nat → Nat) (opp : Nat) : Nat → FState → FState
  | 0, st => st
  | k + 1, st => fBwdRespStep sides roll opp k (fBwdRespLoop sides roll opp k st)

/-- One level of the backward pass of `FSICFR.py.train` (identical in
`FSICFR_refactored._backward_pass`): the claim block runs first and, when the
claim node at this level exists (`opp < sides`) but is unreached, its
`continue` skips the response block of the same level as well. -/
def fBwdLevel (sides : Nat) (roll : Nat → Nat) (opp : Nat) (st : FState) : FState :=
  if opp < sides then
    let node := st.claimNodes opp (roll opp)
    if node.pPlayer = 0 ∧ node.pOpponent = 0 then st
    else
      let st1 := fBwdClaimBody sides roll opp st
      if opp = 0 then st1 else fBwdRespLoop sides roll opp opp st1
  else if opp = 0 then st else fBwdRespLoop sides roll opp opp st

def fBwdLevels (sides : Nat) (roll : Nat → Nat) : Nat → FState → FState
  | 0, st => fBwdLevel sides roll 0 st
  | k + 1, st => fBwdLevels sides roll k (fBwdLevel sides roll (k + 1) st)

/-- The backward pass of `FSICFR.py.train` / `FSICFR_refactored.py`:
levels `sides .. 0` decreasing. -/
def fsicfrBackward (sides : Nat) (roll : Nat → Nat) (st : FState) : FState :=
  fBwdLevels sides roll sides st

/-- The midpoint reset of `FSICFR.py.train` (`strategy_sum.fill(0.0)` on
every node when `iter == iterations // 2`; `regret_sum` untouched). -/
def fsicfrZeroStrategySums (st : FState) : FState :=
  { responseNodes := fun i j =>
      { st.responseNodes i j with
          strategySum := List.replicate (st.responseNodes i j).strategySum.length 0 }
    claimNodes := fun i j =>
      { st.claimNodes i j with
          strategySum := List.replicate (st.claimNodes i j).strategySum.length 0 } }

def fsicfrResetStrategySums (iter iterations : Nat) (st : FState) : FState :=
  if iter = iterations / 2 then fsicfrZeroStrategySums st else st

/-- One body of `FSICFR.py.train`'s loop for a fixed chance outcome function:
set the root reaches, forward sweep, backward sweep, conditional midpoint
reset. -/
def fsicfrIterationBody (sides : Nat) (roll : Nat → Nat) (iter iterations : Nat)
    (st : FState) : FState :=
  fsicfrResetStrategySums iter iterations
    (fsicfrBackward sides roll (fsicfrForward sides roll (fsicfrSetRoot roll st)))

/-- One body of `FSICFR_refactored.train`'s loop: same as `FSICFR.py` except
for the restructured forward pass. -/
def refactoredIterationBody (sides : Nat) (roll : Nat → Nat) (iter iterations : Nat)
    (st : FState) : FState :=
  fsicfrResetStrategySums iter iterations
    (fsicfrBackward sides roll (refactoredForward sides roll (fsicfrSetRoot roll st)))

/-! ## Claim C5: per-iteration chance fixing -/

/-- C5 (counterexample): `liar_die.py`'s `initialize` draws only `sides`
integers (`np.random.randint(1, sides + 1, size=self.sides)`), not
`sides + 1`: at `sides = 1` the draw array has length 1, not 2. -/
theorem c5_counterexample :
    (ldFixRolls 1 (fun _ => 1)).length = 1 ∧ (ldFixRolls 1 (fun _ => 1)).length ≠ 1 + 1 := by
  norm_num [ldFixRolls]

/-- C5 (amended): at the start of every iteration, `FSICFR.py` and
`FSICFR_refactored.py` draw `sides + 1` uniform integers in `[1, sides]`,
but `liar_die.py`'s `initialize` draws only `sides` of them (indices
`0 .. sides - 1`, which is all its own-level indexing ever reads); all
variants *set* (not add to) both reach fields of the single root claim node
keyed by `(0, first draw)` to 1.0, whatever their previous values. -/
theorem c5_amended (sides : Nat) (draw : Nat → Nat) (lst : LDState) (fst : FState)
    (hs : 1 ≤ sides) (hd : ∀ i, 1 ≤ draw i ∧ draw i ≤ sides) :
    (fsicfrFixRolls sides draw).length = sides + 1 ∧
    (ldFixRolls sides draw).length = sides ∧
    (∀ x ∈ fsicfrFixRolls sides draw, 1 ≤ x ∧ x ≤ sides) ∧
    (∀ x ∈ ldFixRolls sides draw, 1 ≤ x ∧ x ≤ sides) ∧
    ((ldSetRoot (ldFixRolls sides draw) lst).claimN 0 (draw 0)).myReach = 1 ∧
    ((ldSetRoot (ldFixRolls sides draw) lst).claimN 0 (draw 0)).oppReach = 1 ∧
    ((fsicfrSetRoot draw fst).claimNodes 0 (draw 0)).pPlayer = 1 ∧
    ((fsicfrSetRoot draw fst).claimNodes 0 (draw 0)).pOpponent = 1 := by
  have hget : (ldFixRolls sides draw).getD 0 0 = draw 0 := by
    rcases sides with _ | n
    · omega
    · simp [ldFixRolls, List.range_succ_eq_map]
  refine ⟨?_, ?_, ?_, ?_, ?_, ?_, ?_, ?_⟩
  · simp [fsicfrFixRolls]
  · simp [ldFixRolls]
  · intro x hx
    rcases List.mem_map.mp hx with ⟨i, _, rfl⟩
    exact hd i
  · intro x hx
    rcases List.mem_map.mp hx with ⟨i, _, rfl⟩
    exact hd i
  · simp only [ldSetRoot, setClaimNode, hget]
    simp
  · simp only [ldSetRoot, setClaimNode, hget]
    simp
  · simp [fsicfrSetRoot, setFClaim]
  · simp [fsicfrSetRoot, setFClaim]

/-- Witness for `c5_amended`: `sides = 2`, constant draw 1, fresh states. -/
theorem c5_amended_witness :
    (fsicfrFixRolls 2 (fun _ => 1)).length = 2 + 1 ∧
    (ldFixRolls 2 (fun _ => 1)).length = 2 ∧
    (∀ x ∈ fsicfrFixRolls 2 (fun _ => 1), 1 ≤ x ∧ x ≤ 2) ∧
    (∀ x ∈ ldFixRolls 2 (fun _ => 1), 1 ≤ x ∧ x ≤ 2) ∧
    ((ldSetRoot (ldFixRolls 2 (fun _ => 1)) (ldFreshState 2)).claimN 0 1).myReach = 1 ∧
    ((ldSetRoot (ldFixRolls 2 (fun _ => 1)) (ldFreshState 2)).claimN 0 1).oppReach = 1 ∧
    ((fsicfrSetRoot (fun _ => 1) (fsicfrFreshState 2)).claimNodes 0 1).pPlayer = 1 ∧
    ((fsicfrSetRoot (fun _ => 1) (fsicfrFreshState 2)).claimNodes 0 1).pOpponent = 1 :=
  c5_amended 2 (fun _ => 1) (ldFreshState 2) (fsicfrFreshState 2) (by norm_num)
    (fun _ => ⟨le_refl 1, by norm_num⟩)

/-! ## Claim C6: midpoint reset of `strategy_sum` -/

/-- C6 (confirmed): within a run of `train(iterations)`, the iteration body
applies the `strategy_sum` reset exactly at iteration index
`iterations // 2`, after that iteration's forward and backward passes: at
that index every node's `strategy_sum` becomes the zero vector while its
`regret_sum` is exactly what the passes computed; at any other index the
iteration body is the passes alone, so `strategy_sum` keeps accumulating. -/
theorem c6_confirmed (sides : Nat) (roll : Nat → Nat) (iter iterations i j : Nat)
    (st : FState) :
    (iter = iterations / 2 →
      ((fsicfrIterationBody sides roll iter iterations st).responseNodes i j).strategySum =
        List.replicate
          (((fsicfrBackward sides roll (fsicfrForward sides roll
              (fsicfrSetRoot roll st))).responseNodes i j).strategySum.length) 0 ∧
      ((fsicfrIterationBody sides roll iter iterations st).claimNodes i j).strategySum =
        List.replicate
          (((fsicfrBackward sides roll (fsicfrForward sides roll
              (fsicfrSetRoot roll st))).claimNodes i j).strategySum.length) 0 ∧
      ((fsicfrIterationBody sides roll iter iterations st).responseNodes i j).regretSum =
        ((fsicfrBackward sides roll (fsicfrForward sides roll
            (fsicfrSetRoot roll st))).responseNodes i j).regretSum ∧
      ((fsicfrIterationBody sides roll iter iterations st).claimNodes i j).regretSum =
        ((fsicfrBackward sides roll (fsicfrForward sides roll
            (fsicfrSetRoot roll st))).claimNodes i j).regretSum) ∧
    (iter ≠ iterations / 2 →
      fsicfrIterationBody sides roll iter iterations st =
        fsicfrBackward sides roll (fsicfrForward sides roll (fsicfrSetRoot roll st))) := by
  constructor
  · intro h
    simp [fsicfrIterationBody, fsicfrResetStrategySums, if_pos h, fsicfrZeroStrategySums]
  · intro h
    simp only [fsicfrIterationBody, fsicfrResetStrategySums, if_neg h]

/-- Witness for `c6_confirmed`: a 2-iteration run; index 1 (= `2 // 2`) is
reset, index 0 is not. -/
theorem c6_confirmed_witness :
    ((fsicfrIterationBody 1 (fun _ => 1) 1 2 (fsicfrFreshState 1)).responseNodes 0 1).strategySum =
      List.replicate
        (((fsicfrBackward 1 (fun _ => 1) (fsicfrForward 1 (fun _ => 1)
            (fsicfrSetRoot (fun _ => 1) (fsicfrFreshState 1)))).responseNodes 0 1).strategySum.length) 0 ∧
    fsicfrIterationBody 1 (fun _ => 1) 0 2 (fsicfrFreshState 1) =
      fsicfrBackward 1 (fun _ => 1) (fsicfrForward 1 (fun _ => 1)
        (fsicfrSetRoot (fun _ => 1) (fsicfrFreshState 1))) :=
  ⟨((c6_confirmed 1 (fun _ => 1) 1 2 0 1 (fsicfrFreshState 1)).1 (by norm_num)).1,
    (c6_confirmed 1 (fun _ => 1) 0 2 0 1 (fsicfrFreshState 1)).2 (by norm_num)⟩

/-! ## Claim C1: the forward claim-step push swaps the reach roles -/

/-- C1 / C10 setup: `sides = 1`, the claim node `(0, 1)` active with
`my_reach`/`p_player` = 1 and `opp_reach`/`p_opponent` = 2, so that the two
reach roles are distinguishable. -/
def c1LDState : LDState :=
  setClaimNode (ldFreshState 1) 0 1
    { MNode.init [0, 1] (claimActions 1 0) with myReach := 1, oppReach := 2 }

def c1FState : FState :=
  setFClaim (fsicfrFreshState 1) 0 1
    { FNode.init 1 with pPlayer := 1, pOpponent := 2 }

/-- C1: on the claim-step push (claim level 0, higher level 1, with action
probability 1), `liar_die.py` swaps the reach roles exactly as the claim
states — the response node's `my_reach` gains the claim node's `opp_reach`
(2) and its `opp_reach` gains `prob × my_reach` (1) — but `FSICFR.py` (lines
211–214) does *not* swap, assigning `p_player += prob * p_player` (1) and
`p_opponent += p_opponent` (2), directly contradicting the source comment one
line above it ("플레이어가 바뀌므로 p_player와 p_opponent를 교체" — "the player
changes, so swap p_player and p_opponent").  `FSICFR_refactored.py` lines
196–198 contain the same unswapped assignment. -/
theorem c1_code_bug :
    ((ldFwdClaim 1 (fun _ => 1) 0 c1LDState).respN 0 1).myReach = 2 ∧
    ((ldFwdClaim 1 (fun _ => 1) 0 c1LDState).respN 0 1).oppReach = 1 ∧
    ((fFwdClaimBlock 1 (fun _ => 1) 0 c1FState).responseNodes 0 1).pPlayer = 1 ∧
    ((fFwdClaimBlock 1 (fun _ => 1) 0 c1FState).responseNodes 0 1).pOpponent = 2 := by
  refine ⟨?_, ?_, ?_, ?_⟩ <;>
    norm_num [ldFwdClaim, ldFwdClaimPush, c1LDState, ldFreshState, setClaimNode, setRespNode,
      MNode.getStrategy, MNode.init, MNode.getUniformStrategy, mgrNormalize, claimActions,
      responseActions, vmax0, vdiv, vscale, vadd, unifStrat, ACCEPT, DOUBT,
      fFwdClaimBlock, fFwdClaimPush, c1FState, fsicfrFreshState, setFClaim, setFResp,
      FNode.getStrategy, FNode.init, List.getD]

/-! ## Claim C3: the doubt utility's roll index -/

def c3Roll : Nat → Nat := fun i => if i = 0 then 1 else 2

/-- C3 setup: `sides = 2`, response node `(my = 0, opp = 2)` — a one-action
(doubt only) node — with strategy `[1]`; rolls fixed to `roll[0] = 1`,
`roll[2] = 2`. -/
def c3LDState : LDState :=
  setRespNode (ldFreshState 2) 0 2
    { MNode.init [0, 2] (responseActions 2 2) with strategy := [1] }

def c3FState : FState :=
  setFResp (fsicfrFreshState 2) 0 2
    { FNode.init 1 with strategy := [1], pOpponent := 1 }

/-- C3 (counterexample): at `my = 0`, `opp = 2`, `roll[0] = 1`, `roll[2] = 2`,
the claim's formula (`+1` iff `opp` exceeds the outcome at the node's *own*
level) gives `+1` since `2 > 1`, and `liar_die.py`'s backward response step
indeed computes utility `+1`; but `FSICFR.py`'s computes `-1`, because it
indexes the fixed-roll array by the opponent's level (`2 > roll[2] = 2`
fails).  The claim is therefore false of `FSICFR.py`/`FSICFR_refactored.py`. -/
theorem c3_counterexample :
    ((ldBwdRespStep 2 c3Roll 2 0 c3LDState).respN 0 2).util = 1 ∧
    ((fBwdRespStep 2 c3Roll 2 0 c3FState).responseNodes 0 2).u = -1 := by
  constructor <;>
    norm_num [ldBwdRespStep, c3LDState, c3Roll, ldFreshState, setRespNode, setClaimNode,
      MNode.init, MNode.updateRegretSum, MNode.resetReach, calcUtility, mapIdxBelow,
      responseActions, claimActions, DOUBT, ACCEPT,
      fBwdRespStep, c3FState, fsicfrFreshState, setFResp, setFClaim, FNode.init, List.getD]

/-- C3 (amended): for a two-action response node `(my, opp)` with
`opp < sides` and strategy `[p, q]`, the backward response step of
`liar_die.py` computes the node utility
`p * (±1 by comparing opp against roll[my], the node's own level) +
q * (next claim node's utility, unnegated)`, while `FSICFR.py` (and
`FSICFR_refactored.py`) computes
`p * (±1 by comparing opp against roll[opp], the opponent's level) +
q * (−(next claim node's utility))`.  The claim's own-level indexing holds
only for `liar_die.py` and `liar_die_copy.py`. -/
theorem c3_amended (sides : Nat) (roll : Nat → Nat) (opp my : Nat)
    (lst : LDState) (fst : FState) (p q : ℚ)
    (hl : (lst.respN my opp).strategy = [p, q])
    (hf : (fst.responseNodes my opp).strategy = [p, q])
    (hreach : ¬ ((fst.responseNodes my opp).pPlayer = 0 ∧
      (fst.responseNodes my opp).pOpponent = 0))
    (hos : opp < sides) :
    ((ldBwdRespStep sides roll opp my lst).respN my opp).util =
      p * (if roll my < opp then 1 else -1) + q * (lst.claimN opp (roll opp)).util ∧
    ((fBwdRespStep sides roll opp my fst).responseNodes my opp).u =
      p * (if roll opp < opp then 1 else -1) + q * (-(fst.claimNodes opp (roll opp)).u) := by
  constructor
  · simp only [ldBwdRespStep, setRespNode, MNode.resetReach, MNode.updateRegretSum,
      if_pos hos, calcUtility, hl]
    simp [List.zipWith]
  · simp only [fBwdRespStep, if_neg hreach, setFResp, if_pos hos, hf, DOUBT, ACCEPT]
    simp [List.getD]

/-- Witness states for `c3_amended`: two-action response node `(0, 1)` with
strategy `[1, 0]` at `sides = 2`. -/
def c3WitLD : LDState :=
  setRespNode (ldFreshState 2) 0 1
    { MNode.init [0, 1] (responseActions 2 1) with strategy := [1, 0] }

def c3WitF : FState :=
  setFResp (fsicfrFreshState 2) 0 1
    { FNode.init 2 with strategy := [1, 0], pOpponent := 1 }

/-- Witness for `c3_amended` at `sides = 2`, `opp = 1`, `my = 0`,
`p = 1`, `q = 0`. -/
theorem c3_amended_witness :
    ((ldBwdRespStep 2 c3Roll 1 0 c3WitLD).respN 0 1).util =
      1 * (if c3Roll 0 < 1 then 1 else -1) + 0 * (c3WitLD.claimN 1 (c3Roll 1)).util ∧
    ((fBwdRespStep 2 c3Roll 1 0 c3WitF).responseNodes 0 1).u =
      1 * (if c3Roll 1 < 1 then 1 else -1) + 0 * (-(c3WitF.claimNodes 1 (c3Roll 1)).u) :=
  c3_amended 2 c3Roll 1 0 c3WitLD c3WitF 1 0
    (by norm_num [c3WitLD, ldFreshState, setRespNode, MNode.init])
    (by norm_num [c3WitF, fsicfrFreshState, setFResp, FNode.init])
    (by norm_num [c3WitF, fsicfrFreshState, setFResp, FNode.init])
    (by norm_num)

/-! ## Claim C10: `FSICFR.py` vs `FSICFR_refactored.py` -/

/-- C10 (evaluation at the failing input): one training iteration at
`sides = 1` (iteration 0 of a 2-iteration run, so no midpoint reset), fixed
roll 1, from the freshly constructed state.  `FSICFR.py` interleaves the
response and claim blocks per level, so the response node `(0, 1)` — reached
by the claim node's push and at opponent level `sides` — has its strategy
recomputed during the forward pass (strategy `[1]`, `strategy_sum` `[1]`)
and ends with `regret_sum` `[0]`.  `FSICFR_refactored._forward_pass` runs
its entire response loop *before* any claim node pushes reach, so the same
node keeps its stale zero strategy, accumulates nothing, and its backward
step (using that zero strategy) accumulates `regret_sum` `[-1]`.  The two
variants therefore do not leave identical node states. -/
theorem c10_code_bug :
    ((fsicfrIterationBody 1 (fun _ => 1) 0 2 (fsicfrFreshState 1)).responseNodes 0 1).strategy
        = [1] ∧
    ((fsicfrIterationBody 1 (fun _ => 1) 0 2 (fsicfrFreshState 1)).responseNodes 0 1).strategySum
        = [1] ∧
    ((fsicfrIterationBody 1 (fun _ => 1) 0 2 (fsicfrFreshState 1)).responseNodes 0 1).regretSum
        = [0] ∧
    ((refactoredIterationBody 1 (fun _ => 1) 0 2 (fsicfrFreshState 1)).responseNodes 0 1).strategy
        = [0] ∧
    ((refactoredIterationBody 1 (fun _ => 1) 0 2 (fsicfrFreshState 1)).responseNodes 0 1).strategySum
        = [0] ∧
    ((refactoredIterationBody 1 (fun _ => 1) 0 2 (fsicfrFreshState 1)).responseNodes 0 1).regretSum
        = [-1] ∧
    (fsicfrIterationBody 1 (fun _ => 1) 0 2 (fsicfrFreshState 1)).responseNodes 0 1 ≠
      (refactoredIterationBody 1 (fun _ => 1) 0 2 (fsicfrFreshState 1)).responseNodes 0 1 := by
  refine ⟨?_, ?_, ?_, ?_, ?_, ?_, ?_⟩ <;>
    norm_num [fsicfrIterationBody, refactoredIterationBody, fsicfrResetStrategySums,
      fsicfrBackward, fBwdLevels, fBwdLevel, fBwdRespLoop, fBwdRespStep, fBwdClaimBody,
      fBwdClaimChildLoop, fsicfrForward, fFwdLevels, fFwdLevel, fFwdClaimBlock,
      fFwdClaimPush, fFwdRespLoop, fFwdRespStep, refactoredForward, rFwdClaimLevels,
      rFwdRespLevels, rFwdRespLoop, rFwdRespStep, fsicfrSetRoot, setFClaim, setFResp,
      fsicfrFreshState, FNode.getStrategy, FNode.init, vmax0, vdiv, vadd, vscale,
      unifStrat, mapIdxBelow, DOUBT, ACCEPT, List.getD, FNode.mk.injEq]

/-! ## Claim C4: reach probabilities are zero outside the passes

Observation helpers for the two reach fields of a node of each map. -/

def claimReach (st : LDState) (i j : Nat) : ℚ × ℚ :=
  ((st.claimN i j).myReach, (st.claimN i j).oppReach)

def respReach (st : LDState) (i j : Nat) : ℚ × ℚ :=
  ((st.respN i j).myReach, (st.respN i j).oppReach)

theorem claimReach_setResp (st : LDState) (a b : Nat) (nd : MNode) (i j : Nat) :
    claimReach (setRespNode st a b nd) i j = claimReach st i j := rfl

theorem respReach_setClaim (st : LDState) (a b : Nat) (nd : MNode) (i j : Nat) :
    respReach (setClaimNode st a b nd) i j = respReach st i j := rfl

theorem respReach_setResp_ne (st : LDState) (a b : Nat) (nd : MNode) (i j : Nat)
    (h : ¬ (i = a ∧ j = b)) : respReach (setRespNode st a b nd) i j = respReach st i j := by
  simp [respReach, setRespNode, if_neg h]

theorem claimReach_setClaim_ne (st : LDState) (a b : Nat) (nd : MNode) (i j : Nat)
    (h : ¬ (i = a ∧ j = b)) : claimReach (setClaimNode st a b nd) i j = claimReach st i j := by
  simp [claimReach, setClaimNode, if_neg h]

/-- Embeds `get_strategy` does not modify reach fields. -/
theorem mnode_getStrategy_reach (n : MNode) :
    ((MNode.getStrategy n).2.myReach, (MNode.getStrategy n).2.oppReach) =
      (n.myReach, n.oppReach) := rfl

/-- The forward response step leaves every response node's reaches unchanged
(it rewrites only strategy data there and pushes into a claim node). -/
theorem fwdRespStep_respReach (sides : Nat) (roll : Nat → Nat) (opp my i j : Nat)
    (st : LDState) :
    respReach (ldFwdRespStep sides roll opp my st) i j = respReach st i j := by
  simp only [ldFwdRespStep]
  split
  · by_cases hk : i = my ∧ j = opp
    · obtain ⟨rfl, rfl⟩ := hk
      simp [respReach, setRespNode, MNode.getStrategy]
    · exact respReach_setResp_ne _ _ _ _ _ _ hk
  · rw [respReach_setClaim]
    by_cases hk : i = my ∧ j = opp
    · obtain ⟨rfl, rfl⟩ := hk
      simp [respReach, setRespNode, MNode.getStrategy]
    · exact respReach_setResp_ne _ _ _ _ _ _ hk

/-- The forward response step changes the reaches only of the claim node
`(opp, roll opp)`, and only when `opp < sides`. -/
theorem fwdRespStep_claimReach (sides : Nat) (roll : Nat → Nat) (opp my i j : Nat)
    (st : LDState) (h : ¬ (i = opp ∧ j = roll opp ∧ opp < sides)) :
    claimReach (ldFwdRespStep sides roll opp my st) i j = claimReach st i j := by
  simp only [ldFwdRespStep]
  split
  · exact claimReach_setResp _ _ _ _ _ _
  · rename_i hle
    have hij : ¬ (i = opp ∧ j = roll opp) := fun hk => h ⟨hk.1, hk.2, Nat.lt_of_not_le hle⟩
    rw [claimReach_setClaim_ne _ _ _ _ _ _ hij, claimReach_setResp]

theorem fwdRespLoop_respReach (sides : Nat) (roll : Nat → Nat) (opp k i j : Nat)
    (st : LDState) :
    respReach (ldFwdRespLoop sides roll opp k st) i j = respReach st i j := by
  induction k with
  | zero => rfl
  | succ k ih => rw [ldFwdRespLoop, fwdRespStep_respReach, ih]

theorem fwdRespLoop_claimReach (sides : Nat) (roll : Nat → Nat) (opp k i j : Nat)
    (st : LDState) (h : ¬ (i = opp ∧ j = roll opp ∧ opp < sides)) :
    claimReach (ldFwdRespLoop sides roll opp k st) i j = claimReach st i j := by
  induction k with
  | zero => rfl
  | succ k ih => rw [ldFwdRespLoop, fwdRespStep_claimReach _ _ _ _ _ _ _ h, ih]

theorem fwdResponse_respReach (sides : Nat) (roll : Nat → Nat) (opp i j : Nat)
    (st : LDState) :
    respReach (ldFwdResponse sides roll opp st) i j = respReach st i j := by
  simp only [ldFwdResponse]
  split
  · rfl
  · exact fwdRespLoop_respReach _ _ _ _ _ _ _

theorem fwdResponse_claimReach (sides : Nat) (roll : Nat → Nat) (opp i j : Nat)
    (st : LDState) (h : ¬ (i = opp ∧ j = roll opp ∧ opp < sides)) :
    claimReach (ldFwdResponse sides roll opp st) i j = claimReach st i j := by
  simp only [ldFwdResponse]
  split
  · rfl
  · exact fwdRespLoop_claimReach _ _ _ _ _ _ _ h

theorem fwdClaimPush_claimReach (prob : List ℚ) (nd : MNode) (opp k i j : Nat)
    (st : LDState) :
    claimReach (ldFwdClaimPush prob nd opp k st) i j = claimReach st i j := by
  induction k with
  | zero => rfl
  | succ k ih =>
    simp only [ldFwdClaimPush]
    split
    · exact ih
    · rw [claimReach_setResp]
      exact ih

theorem fwdClaimPush_respReach (prob : List ℚ) (nd : MNode) (opp k i j : Nat)
    (st : LDState) (h : ¬ (i = opp ∧ opp < j ∧ j ≤ opp + k)) :
    respReach (ldFwdClaimPush prob nd opp k st) i j = respReach st i j := by
  induction k with
  | zero => rfl
  | succ k ih =>
    have h' : ¬ (i = opp ∧ opp < j ∧ j ≤ opp + k) := by
      intro hk
      exact h ⟨hk.1, hk.2.1, by omega⟩
    simp only [ldFwdClaimPush]
    split
    · exact ih h'
    · rw [respReach_setResp_ne]
      · exact ih h'
      · intro hk
        exact h ⟨hk.1, by omega, by omega⟩

theorem fwdClaim_claimReach (sides : Nat) (roll : Nat → Nat) (opp i j : Nat)
    (st : LDState) :
    claimReach (ldFwdClaim sides roll opp st) i j = claimReach st i j := by
  simp only [ldFwdClaim]
  split
  · rfl
  · rw [fwdClaimPush_claimReach]
    by_cases hk : i = opp ∧ j = roll opp
    · obtain ⟨rfl, rfl⟩ := hk
      simp [claimReach, setClaimNode, MNode.getStrategy]
    · exact claimReach_setClaim_ne _ _ _ _ _ _ hk

theorem fwdClaim_respReach (sides : Nat) (roll : Nat → Nat) (opp i j : Nat)
    (st : LDState) (h : ¬ (i = opp ∧ opp < j ∧ j ≤ sides)) :
    respReach (ldFwdClaim sides roll opp st) i j = respReach st i j := by
  simp only [ldFwdClaim]
  split
  · rfl
  · rename_i hlt
    have hos : opp < sides := Nat.lt_of_not_le hlt
    have h' : ¬ (i = opp ∧ opp < j ∧ j ≤ opp + (sides - opp)) := by
      intro hk
      exact h ⟨hk.1, hk.2.1, by omega⟩
    rw [fwdClaimPush_respReach _ _ _ _ _ _ _ h', respReach_setClaim]

theorem fwdLevels_claimReach (sides : Nat) (roll : Nat → Nat) (k i j : Nat)
    (st : LDState) (h : ¬ (i ≤ k ∧ i < sides ∧ j = roll i)) :
    claimReach (ldFwdLevels sides roll k st) i j = claimReach st i j := by
  induction k with
  | zero =>
    rw [ldFwdLevels, fwdClaim_claimReach, fwdResponse_claimReach]
    intro hk
    obtain ⟨rfl, hj, hlt⟩ := hk
    exact h ⟨le_refl 0, hlt, hj⟩
  | succ k ih =>
    rw [ldFwdLevels, fwdClaim_claimReach, fwdResponse_claimReach, ih]
    · intro hk
      exact h ⟨by omega, hk.2.1, hk.2.2⟩
    · intro hk
      obtain ⟨rfl, hj, hlt⟩ := hk
      exact h ⟨le_refl _, hlt, hj⟩

theorem fwdLevels_respReach (sides : Nat) (roll : Nat → Nat) (k i j : Nat)
    (st : LDState) (h : ¬ (i ≤ k ∧ i < j ∧ j ≤ sides)) :
    respReach (ldFwdLevels sides roll k st) i j = respReach st i j := by
  induction k with
  | zero =>
    rw [ldFwdLevels, fwdClaim_respReach, fwdResponse_respReach]
    intro hk
    obtain ⟨rfl, hj, hle⟩ := hk
    exact h ⟨le_refl 0, hj, hle⟩
  | succ k ih =>
    rw [ldFwdLevels, fwdClaim_respReach, fwdResponse_respReach, ih]
    · intro hk
      exact h ⟨by omega, hk.2.1, hk.2.2⟩
    · intro hk
      obtain ⟨rfl, hj, hle⟩ := hk
      exact h ⟨le_refl _, hj, hle⟩

/-- The forward pass touches no claim reach outside
`{(L, roll L) : L < sides}`. -/
theorem forward_claimReach (sides : Nat) (roll : Nat → Nat) (i j : Nat)
    (st : LDState) (h : ¬ (i < sides ∧ j = roll i)) :
    claimReach (ldForward sides roll st) i j = claimReach st i j := by
  rw [ldForward, fwdLevels_claimReach]
  intro hk
  exact h ⟨hk.2.1, hk.2.2⟩

/-- The forward pass touches no response reach outside
`{(L, L') : L < L' ≤ sides}`. -/
theorem forward_respReach (sides : Nat) (roll : Nat → Nat) (i j : Nat)
    (st : LDState) (h : ¬ (i < j ∧ j ≤ sides)) :
    respReach (ldForward sides roll st) i j = respReach st i j := by
  rw [ldForward, fwdLevels_respReach]
  intro hk
  exact h ⟨hk.2.1, hk.2.2⟩

theorem setRoot_claimReach (fixedRoll : List Nat) (i j : Nat) (st : LDState)
    (h : ¬ (i = 0 ∧ j = fixedRoll.getD 0 0)) :
    claimReach (ldSetRoot fixedRoll st) i j = claimReach st i j := by
  simp only [ldSetRoot]
  exact claimReach_setClaim_ne _ _ _ _ _ _ h

theorem setRoot_respReach (fixedRoll : List Nat) (i j : Nat) (st : LDState) :
    respReach (ldSetRoot fixedRoll st) i j = respReach st i j := rfl

/-- The backward claim block zeroes the reaches of the claim node
`(opp, roll opp)` when `opp < sides`. -/
theorem bwdClaim_claimReach_target (sides : Nat) (roll : Nat → Nat) (opp : Nat)
    (st : LDState) (hlt : opp < sides) :
    claimReach (ldBwdClaim sides roll opp st) opp (roll opp) = (0, 0) := by
  simp only [ldBwdClaim, if_neg (Nat.not_le.mpr hlt)]
  simp [claimReach, setClaimNode, MNode.resetReach, MNode.updateRegretSum]

/-- The backward claim block leaves every other claim node's reaches
unchanged. -/
theorem bwdClaim_claimReach_other (sides : Nat) (roll : Nat → Nat) (opp i j : Nat)
    (st : LDState) (h : ¬ (i = opp ∧ j = roll opp ∧ opp < sides)) :
    claimReach (ldBwdClaim sides roll opp st) i j = claimReach st i j := by
  simp only [ldBwdClaim]
  split
  · rfl
  · rename_i hle
    exact claimReach_setClaim_ne _ _ _ _ _ _
      (fun hk => h ⟨hk.1, hk.2, Nat.lt_of_not_le hle⟩)

theorem bwdClaim_respReach (sides : Nat) (roll : Nat → Nat) (opp i j : Nat)
    (st : LDState) :
    respReach (ldBwdClaim sides roll opp st) i j = respReach st i j := by
  simp only [ldBwdClaim]
  split
  · rfl
  · exact respReach_setClaim _ _ _ _ _ _

/-- The backward response step zeroes the reaches of response node
`(my, opp)`. -/
theorem bwdRespStep_respReach_target (sides : Nat) (roll : Nat → Nat) (opp my : Nat)
    (st : LDState) :
    respReach (ldBwdRespStep sides roll opp my st) my opp = (0, 0) := by
  simp [respReach, ldBwdRespStep, setRespNode, MNode.resetReach, MNode.updateRegretSum]

theorem bwdRespStep_respReach_other (sides : Nat) (roll : Nat → Nat) (opp my i j : Nat)
    (st : LDState) (h : ¬ (i = my ∧ j = opp)) :
    respReach (ldBwdRespStep sides roll opp my st) i j = respReach st i j := by
  simp only [ldBwdRespStep]
  exact respReach_setResp_ne _ _ _ _ _ _ h

theorem bwdRespStep_claimReach (sides : Nat) (roll : Nat → Nat) (opp my i j : Nat)
    (st : LDState) :
    claimReach (ldBwdRespStep sides roll opp my st) i j = claimReach st i j := rfl

theorem bwdRespLoop_respReach_target (sides : Nat) (roll : Nat → Nat) (opp k m : Nat)
    (st : LDState) (hm : m < k) :
    respReach (ldBwdRespLoop sides roll opp k st) m opp = (0, 0) := by
  induction k with
  | zero => omega
  | succ k ih =>
    rw [ldBwdRespLoop]
    by_cases hmk : m = k
    · subst hmk
      exact bwdRespStep_respReach_target _ _ _ _ _
    · rw [bwdRespStep_respReach_other _ _ _ _ _ _ _ (fun hk => hmk hk.1)]
      exact ih (by omega)

theorem bwdRespLoop_respReach_other (sides : Nat) (roll : Nat → Nat) (opp k i j : Nat)
    (st : LDState) (h : ¬ (i < k ∧ j = opp)) :
    respReach (ldBwdRespLoop sides roll opp k st) i j = respReach st i j := by
  induction k with
  | zero => rfl
  | succ k ih =>
    rw [ldBwdRespLoop, bwdRespStep_respReach_other, ih]
    · intro hk
      exact h ⟨by omega, hk.2⟩
    · intro hk
      exact h ⟨by omega, hk.2⟩

theorem bwdRespLoop_claimReach (sides : Nat) (roll : Nat → Nat) (opp k i j : Nat)
    (st : LDState) :
    claimReach (ldBwdRespLoop sides roll opp k st) i j = claimReach st i j := by
  induction k with
  | zero => rfl
  | succ k ih => rw [ldBwdRespLoop, bwdRespStep_claimReach, ih]

theorem bwdResponse_respReach_target (sides : Nat) (roll : Nat → Nat) (opp m : Nat)
    (st : LDState) (hm : m < opp) :
    respReach (ldBwdResponse sides roll opp st) m opp = (0, 0) := by
  simp only [ldBwdResponse]
  rw [if_neg (by omega)]
  exact bwdRespLoop_respReach_target _ _ _ _ _ _ hm

theorem bwdResponse_respReach_other (sides : Nat) (roll : Nat → Nat) (opp i j : Nat)
    (st : LDState) (h : ¬ (i < opp ∧ j = opp)) :
    respReach (ldBwdResponse sides roll opp st) i j = respReach st i j := by
  simp only [ldBwdResponse]
  split
  · rfl
  · exact bwdRespLoop_respReach_other _ _ _ _ _ _ _ h

theorem bwdResponse_claimReach (sides : Nat) (roll : Nat → Nat) (opp i j : Nat)
    (st : LDState) :
    claimReach (ldBwdResponse sides roll opp st) i j = claimReach st i j := by
  simp only [ldBwdResponse]
  split
  · rfl
  · exact bwdRespLoop_claimReach _ _ _ _ _ _ _

theorem bwdLevels_claimReach_other (sides : Nat) (roll : Nat → Nat) (k i j : Nat)
    (st : LDState) (h : ¬ (i ≤ k ∧ i < sides ∧ j = roll i)) :
    claimReach (ldBwdLevels sides roll k st) i j = claimReach st i j := by
  induction k generalizing st with
  | zero =>
    rw [ldBwdLevels, bwdResponse_claimReach, bwdClaim_claimReach_other]
    intro hk
    obtain ⟨rfl, hj, hlt⟩ := hk
    exact h ⟨le_refl 0, hlt, hj⟩
  | succ k ih =>
    rw [ldBwdLevels, ih _ (fun hk => h ⟨by omega, hk.2.1, hk.2.2⟩),
      bwdResponse_claimReach, bwdClaim_claimReach_other]
    intro hk
    obtain ⟨rfl, hj, hlt⟩ := hk
    exact h ⟨le_refl _, hlt, hj⟩

theorem bwdLevels_respReach_other (sides : Nat) (roll : Nat → Nat) (k i j : Nat)
    (st : LDState) (h : ¬ (i < j ∧ j ≤ k)) :
    respReach (ldBwdLevels sides roll k st) i j = respReach st i j := by
  induction k generalizing st with
  | zero =>
    rw [ldBwdLevels, bwdResponse_respReach_other, bwdClaim_respReach]
    intro hk
    omega
  | succ k ih =>
    rw [ldBwdLevels, ih _ (fun hk => h ⟨hk.1, by omega⟩),
      bwdResponse_respReach_other, bwdClaim_respReach]
    intro hk
    exact h ⟨by omega, by omega⟩

theorem bwdLevels_claimReach_target (sides : Nat) (roll : Nat → Nat) (k i : Nat)
    (st : LDState) (hik : i ≤ k) (his : i < sides) :
    claimReach (ldBwdLevels sides roll k st) i (roll i) = (0, 0) := by
  induction k generalizing st with
  | zero =>
    have hi0 : i = 0 := by omega
    subst hi0
    rw [ldBwdLevels, bwdResponse_claimReach]
    exact bwdClaim_claimReach_target _ _ _ _ his
  | succ k ih =>
    rw [ldBwdLevels]
    by_cases hik' : i ≤ k
    · exact ih _ hik'
    · have hi : i = k + 1 := by omega
      subst hi
      rw [bwdLevels_claimReach_other _ _ _ _ _ _ (fun hk => hik' hk.1),
        bwdResponse_claimReach]
      exact bwdClaim_claimReach_target _ _ _ _ his

theorem bwdLevels_respReach_target (sides : Nat) (roll : Nat → Nat) (k i j : Nat)
    (st : LDState) (hij : i < j) (hjk : j ≤ k) :
    respReach (ldBwdLevels sides roll k st) i j = (0, 0) := by
  induction k generalizing st with
  | zero => omega
  | succ k ih =>
    rw [ldBwdLevels]
    by_cases hjk' : j ≤ k
    · exact ih _ hjk'
    · have hj : j = k + 1 := by omega
      subst hj
      rw [bwdLevels_respReach_other _ _ _ _ _ _ (fun hk => hjk' hk.2)]
      exact bwdResponse_respReach_target _ _ _ _ _ hij

/-- The backward pass zeroes the reaches of every claim node `(L, roll L)`
with `L < sides`. -/
theorem backward_claimReach_target (sides : Nat) (roll : Nat → Nat) (i : Nat)
    (st : LDState) (his : i < sides) :
    claimReach (ldBackward sides roll st) i (roll i) = (0, 0) :=
  bwdLevels_claimReach_target sides roll sides i st (le_of_lt his) his

/-- The backward pass zeroes the reaches of every response node `(L, L')`
with `L < L' ≤ sides`. -/
theorem backward_respReach_target (sides : Nat) (roll : Nat → Nat) (i j : Nat)
    (st : LDState) (hij : i < j) (hj : j ≤ sides) :
    respReach (ldBackward sides roll st) i j = (0, 0) :=
  bwdLevels_respReach_target sides roll sides i j st hij hj

theorem backward_claimReach_other (sides : Nat) (roll : Nat → Nat) (i j : Nat)
    (st : LDState) (h : ¬ (i < sides ∧ j = roll i)) :
    claimReach (ldBackward sides roll st) i j = claimReach st i j :=
  bwdLevels_claimReach_other sides roll sides i j st (fun hk => h ⟨hk.2.1, hk.2.2⟩)

theorem backward_respReach_other (sides : Nat) (roll : Nat → Nat) (i j : Nat)
    (st : LDState) (h : ¬ (i < j ∧ j ≤ sides)) :
    respReach (ldBackward sides roll st) i j = respReach st i j :=
  bwdLevels_respReach_other sides roll sides i j st h

/-- The midpoint `strategy_sum` reset does not modify any reach field. -/
theorem resetStrategySum_claimReach (iteration iterations i j : Nat) (st : LDState) :
    claimReach (ldResetStrategySum iteration iterations st) i j = claimReach st i j := by
  simp only [ldResetStrategySum]
  split
  · rfl
  · rfl

theorem resetStrategySum_respReach (iteration iterations i j : Nat) (st : LDState) :
    respReach (ldResetStrategySum iteration iterations st) i j = respReach st i j := by
  simp only [ldResetStrategySum]
  split
  · rfl
  · rfl

/-- C4 (confirmed, `liar_die.py`): if every node's `my_reach` and `opp_reach`
are 0 at the start of an iteration, they are 0 again at its end, for every
node: the backward pass resets the claim node `(L, roll L)` for every
`L < sides` and every response node `(L, L')` with `L < L' ≤ sides` — a
superset of everything the chance fixing and the forward pass can touch —
and all other nodes are never written, so nonzero reach exists only between
the chance fixing and that node's backward visit within one iteration. -/
theorem c4_confirmed (sides : Nat) (draw : Nat → Nat) (iteration iterations i j : Nat)
    (st : LDState) (hs : 1 ≤ sides)
    (h0 : ∀ a b, claimReach st a b = (0, 0) ∧ respReach st a b = (0, 0)) :
    claimReach (ldIterationBody sides draw iteration iterations st) i j = (0, 0) ∧
    respReach (ldIterationBody sides draw iteration iterations st) i j = (0, 0) := by
  simp only [ldIterationBody]
  constructor
  · rw [resetStrategySum_claimReach]
    by_cases hc : i < sides ∧ j = (ldFixRolls sides draw).getD i 0
    · obtain ⟨hlt, rfl⟩ := hc
      exact backward_claimReach_target _ _ _ _ hlt
    · rw [backward_claimReach_other _ _ _ _ _ hc, forward_claimReach _ _ _ _ _ hc,
        setRoot_claimReach]
      · exact (h0 i j).1
      · intro hk
        obtain ⟨rfl, rfl⟩ := hk
        exact hc ⟨by omega, rfl⟩
  · rw [resetStrategySum_respReach]
    by_cases hr : i < j ∧ j ≤ sides
    · exact backward_respReach_target _ _ _ _ _ hr.1 hr.2
    · rw [backward_respReach_other _ _ _ _ _ hr, forward_respReach _ _ _ _ _ hr,
        setRoot_respReach]
      exact (h0 i j).2

/-- Witness for `c4_confirmed`: one full iteration at `sides = 1` from the
freshly constructed (all-zero-reach) state; the visited node pair `(0, 1)`
ends with zero reaches. -/
theorem c4_confirmed_witness :
    claimReach (ldIterationBody 1 (fun _ => 1) 0 2 (ldFreshState 1)) 0 1 = (0, 0) ∧
    respReach (ldIterationBody 1 (fun _ => 1) 0 2 (ldFreshState 1)) 0 1 = (0, 0) :=
  c4_confirmed 1 (fun _ => 1) 0 2 0 1 (ldFreshState 1) (by norm_num)
    (fun a b => by norm_num [claimReach, respReach, ldFreshState, MNode.init])
